import Mathlib

/-!
Verification of the DataTable component (the sortable/selectable tabular view).

Shallow embedding of `src/components/DataTable` (the sortable, selectable
data table): the cell-value universe, the sort comparator, the sort-state
machine driven by header clicks, the derived sorted view, the selection
handlers, and the body-state rendering (loading / empty / populated).

Records are kept generic (the component is generic in `T`); a column's
`dataIndex` accessor is modelled as a function `T → Value`.
-/

namespace DataTable

/-- JS values that can appear in a table cell for sorting purposes:
`null` and `undefined` are distinct values (as under `===`), strings,
and numbers (modelled as integers; the demo data uses strings and the
comparator only needs an ordered numeric carrier). -/
inductive Value where
  | null : Value
  | undef : Value
  | str : String → Value
  | num : Int → Value
deriving DecidableEq, Repr

/-- JS loose-null test `v == null`: true exactly for `null` and `undefined`. -/
def Value.isNullish : Value → Bool
  | .null => true
  | .undef => true
  | _ => false

/-- JS `typeof v === 'string'`. -/
def Value.isStr : Value → Bool
  | .str _ => true
  | _ => false

/-- Digits of a numeral string to a natural number. -/
def digitsToNat (ds : List Char) : Nat :=
  ds.foldl (fun n c => 10 * n + (c.toNat - '0'.toNat)) 0

/-- JS `ToNumber` on a string, restricted to optionally signed decimal
integer numerals (the fragment relevant here): `""` is `0`, a digit string
is its value, anything else is NaN (`none`). -/
def parseNumJS (s : String) : Option Int :=
  if s = "" then some 0
  else match s.data with
    | '-' :: ds =>
        if ds ≠ [] ∧ ds.all Char.isDigit then some (-(digitsToNat ds : Int)) else none
    | ds =>
        if ds.all Char.isDigit then some (digitsToNat ds : Int) else none

/-- JS `ToNumber` on a value: `null ↦ 0`, `undefined ↦ NaN` (`none`),
numbers are themselves, strings via `parseNumJS`. -/
def toNumJS : Value → Option Int
  | .null => some 0
  | .undef => none
  | .num n => some n
  | .str s => parseNumJS s

/-- JS relational `a < b`: if both operands are strings, code-unit
lexicographic comparison; otherwise numeric comparison after `ToNumber`,
false when either side is NaN. -/
def jsLt : Value → Value → Bool
  | .str s, .str t => decide (s < t)
  | a, b =>
      match toNumJS a, toNumJS b with
      | some x, some y => decide (x < y)
      | _, _ => false

/-- Lexicographic comparison of character lists, -1 / 0 / 1 valued. -/
def lexCmp : List Char → List Char → Int
  | [], [] => 0
  | [], _ :: _ => -1
  | _ :: _, [] => 1
  | a :: as, b :: bs =>
      if a < b then -1 else if b < a then 1 else lexCmp as bs

/-- Model of `String.prototype.localeCompare` under the default collation:
compare case-folded strings first (so `"ana" < "Bob"`), and when the folded
strings agree break the tie with lowercase-first original comparison
(so `"a" < "A"`, as ICU default collation orders case). Case folding is done
per character over the string's data. Returns 0 iff the strings are equal. -/
def localeCompare (s t : String) : Int :=
  if s.data.map Char.toLower = t.data.map Char.toLower then lexCmp t.data s.data
  else lexCmp (s.data.map Char.toLower) (t.data.map Char.toLower)

/-- The body of the sort comparator in `sortedData`:
```
if (aValue === bValue) return 0;
let comparison = 0;
if (aValue == null) comparison = -1;
else if (bValue == null) comparison = 1;
else if (typeof aValue === 'string' && typeof bValue === 'string') {
  comparison = aValue.localeCompare(bValue);
} else {
  comparison = aValue < bValue ? -1 : 1;
}
```
-/
def compareValues (a b : Value) : Int :=
  if a = b then 0
  else if a.isNullish then -1
  else if b.isNullish then 1
  else
    match a, b with
    | .str s, .str t => localeCompare s t
    | _, _ => if jsLt a b then -1 else 1

/-- The source type `'asc' | 'desc'`; the source's `SortOrder` also admits
`null`, which is `Option SortOrder` here. -/
inductive SortOrder where
  | asc : SortOrder
  | desc : SortOrder
deriving DecidableEq, Repr

/-- The source's `interface SortState`: an optional active column key and an
optional order. -/
structure SortState where
  key : Option String
  order : Option SortOrder
deriving DecidableEq, Repr

/-- The initial state `useState<SortState>` is given: both fields `null`. -/
def initialSortState : SortState := { key := none, order := none }

/-- The source's `Column<T>` restricted to the fields the table's logic reads
(`render` and `width` only affect cell markup and are not modelled;
`dataIndex: keyof T` becomes an accessor function). `sortable` is optional
in the source with `undefined` falsy, hence a plain `Bool`. -/
structure Column (T : Type) where
  key : String
  title : String
  dataIndex : T → Value
  sortable : Bool := false

/-- Negation step `return sortState.order === 'asc' ? comparison : -comparison`. -/
def applyOrder (ord : SortOrder) (c : Int) : Int :=
  match ord with
  | .asc => c
  | .desc => -c

/-- The full comparator passed to `sort` for a given column and order. -/
def rowCompare {T : Type} (column : Column T) (ord : SortOrder) (a b : T) : Int :=
  applyOrder ord (compareValues (column.dataIndex a) (column.dataIndex b))

/-- The derived view `sortedData`: return `data` when the sort state is inactive
(`!sortState.key || !sortState.order`, where the empty-string key is falsy)
or the active key matches no column; otherwise sort a copy of `data` by the
comparator. `Array.prototype.sort` with a consistent comparator is modelled
by the stable `List.insertionSort` with `compare ≤ 0` as the precedence
relation. -/
def sortedData {T : Type} (data : List T) (columns : List (Column T))
    (s : SortState) : List T :=
  match s.key, s.order with
  | some k, some ord =>
      if k = "" then data
      else
        match columns.find? (fun col => col.key == k) with
        | none => data
        | some column =>
            List.insertionSort (fun a b => rowCompare column ord a b ≤ 0) data
  | _, _ => data

/-- The click handler `handleSort`: ignore clicks on non-sortable columns; clicking the active
column cycles `asc → desc → null` (clearing the key at `null`); clicking any
other column activates it ascending. -/
def handleSort {T : Type} (column : Column T) (prev : SortState) : SortState :=
  if !column.sortable then prev
  else if prev.key = some column.key then
    let nextOrder : Option SortOrder :=
      match prev.order with
      | some .asc => some .desc
      | some .desc => none
      | none => some .asc
    { key := match nextOrder with
        | some _ => some column.key
        | none => none,
      order := nextOrder }
  else { key := some column.key, order := some .asc }

/-- The `rowKey` prop: a field accessor (`keyof T`, with `?? index` fallback when
the field is nullish) or a key-extractor function. -/
inductive RowKeySpec (T : Type) where
  | field (get : T → Value)
  | func (f : T → Value)

/-- The key extractor `getRowKey`: apply the function form directly; for the field form return
`record[rowKey] ?? index`. -/
def getRowKey {T : Type} (rk : RowKeySpec T) (record : T) (index : Nat) : Value :=
  match rk with
  | .func f => f record
  | .field get =>
      match get record with
      | .null => .num index
      | .undef => .num index
      | v => v

/-- The checkbox handler `handleRowSelect` (the selection it emits via `onRowSelect`): append the
record on check; on uncheck, drop every previously selected entry whose
extracted key (index argument `0`) equals the record's key. -/
def handleRowSelect {T : Type} (rk : RowKeySpec T) (selectedRows : List T)
    (record : T) (checked : Bool) : List T :=
  let recordKey := getRowKey rk record 0
  if checked then selectedRows ++ [record]
  else selectedRows.filter (fun row => getRowKey rk row 0 ≠ recordKey)

/-- The header checkbox handler `handleSelectAll` (the selection it emits): `[...data]` when checked,
`[]` when unchecked. -/
def handleSelectAll {T : Type} (data : List T) (checked : Bool) : List T :=
  if checked then data else []

/-- A cell of the (unused) `LoadingSkeleton` component: the selection
placeholder or a per-column placeholder. -/
inductive SkelCell where
  | select : SkelCell
  | col : SkelCell
deriving DecidableEq, Repr

/-- The `LoadingSkeleton` component: three identical rows, each holding a selection
placeholder cell when `selectable` followed by one placeholder cell per
column. Defined in the source but never rendered by the table body. -/
def LoadingSkeleton {T : Type} (selectable : Bool) (columns : List (Column T)) :
    List (List SkelCell) :=
  List.replicate 3
    ((if selectable then [SkelCell.select] else []) ++
      columns.map (fun _ => SkelCell.col))

/-- The three mutually exclusive states of the rendered `<tbody>`:
the single spinner row carrying `loadingText`, the single `emptyText` row,
the data rows, or (reachable only through `LoadingSkeleton`, which the body
never emits) a skeleton block. -/
inductive TableBody (T : Type) where
  | loadingRow (colSpan : Nat) (text : String)
  | emptyRow (colSpan : Nat) (text : String)
  | dataRows (rows : List T)
  | skeleton (rows : List (List SkelCell))
deriving DecidableEq

/-- The `<tbody>` ternary chain: when `loading`, a single full-width row with
the spinner and `loadingText`; else when `sortedData` is empty, a single
full-width row with `emptyText`; else one row per sorted record. -/
def renderBody {T : Type} (loading : Bool) (loadingText emptyText : String)
    (selectable : Bool) (columns : List (Column T)) (data : List T)
    (s : SortState) : TableBody T :=
  let colSpan := columns.length + (if selectable then 1 else 0)
  if loading then .loadingRow colSpan loadingText
  else if (sortedData data columns s).length = 0 then .emptyRow colSpan emptyText
  else .dataRows (sortedData data columns s)

/-! Concrete fixtures used by witnesses and counterexamples: records are bare
values (`T := Value`) and the column accessor is the identity. -/

/-- A sortable column over bare values. -/
def colA : Column Value :=
  { key := "a", title := "A", dataIndex := id, sortable := true }

/-- A non-sortable column over bare values. -/
def colPlain : Column Value :=
  { key := "p", title := "P", dataIndex := id, sortable := false }

/-- C9's invariant: the active column key is absent iff the order is absent. -/
def SortStateInv (s : SortState) : Prop := s.key = none ↔ s.order = none

/-- C2: a header click on a sortable column activates it ascending when it was
not the active column; on the active column the order cycles ascending →
descending → none (the key is cleared exactly when the order becomes none, and
a none order returns to ascending); a click on a non-sortable column leaves
the sort state unchanged. -/
theorem handleSort_transition {T : Type} (c : Column T) (s : SortState) :
    (c.sortable = false → handleSort c s = s) ∧
    (c.sortable = true → s.key ≠ some c.key →
      handleSort c s = { key := some c.key, order := some SortOrder.asc }) ∧
    (c.sortable = true → s.key = some c.key → s.order = some SortOrder.asc →
      handleSort c s = { key := some c.key, order := some SortOrder.desc }) ∧
    (c.sortable = true → s.key = some c.key → s.order = some SortOrder.desc →
      handleSort c s = { key := none, order := none }) ∧
    (c.sortable = true → s.key = some c.key → s.order = none →
      handleSort c s = { key := some c.key, order := some SortOrder.asc }) := by
  refine ⟨fun hs => by simp [handleSort, hs], fun hs hk => by simp [handleSort, hs, hk],
    fun hs hk ho => ?_, fun hs hk ho => ?_, fun hs hk ho => ?_⟩ <;>
    simp [handleSort, hs, hk, ho]

/-- Witness for C2 at a concrete input: clicking `colA` from the initial state
activates it ascending. -/
theorem handleSort_transition_witness :
    handleSort colA initialSortState =
      { key := some "a", order := some SortOrder.asc } :=
  (handleSort_transition colA initialSortState).2.1 rfl (by simp [initialSortState])

/-- C9: the key-absent-iff-order-absent invariant holds in the initial sort
state and is preserved by every header click. -/
theorem sortStateInv_initial_preserved (T : Type) :
    SortStateInv initialSortState ∧
    ∀ (c : Column T) (s : SortState), SortStateInv s → SortStateInv (handleSort c s) := by
  refine ⟨by simp [SortStateInv, initialSortState], fun c s h => ?_⟩
  by_cases hs : c.sortable = true
  · by_cases hk : s.key = some c.key
    · rcases s with ⟨k, o⟩
      have hk' : k = some c.key := hk
      subst hk'
      rcases o with _ | o
      · simp [handleSort, hs, SortStateInv]
      · cases o <;> simp [handleSort, hs, SortStateInv]
    · simp [handleSort, hs, hk, SortStateInv]
  · have hs' : c.sortable = false := by
      cases hcs : c.sortable
      · rfl
      · exact absurd hcs hs
    simpa [handleSort, hs'] using h

/-- Witness for C9 at a concrete input: the invariant holds after a click on
`colA` from the initial state. -/
theorem sortStateInv_witness : SortStateInv (handleSort colA initialSortState) :=
  (sortStateInv_initial_preserved Value).2 colA initialSortState
    (by simp [SortStateInv, initialSortState])

/-- C5: from any state in which a sortable column is not active, three
successive clicks on that column return the sort state to the initial one and
the displayed sequence to the input data order. -/
theorem threeClicks_restore {T : Type} (data : List T) (columns : List (Column T))
    (c : Column T) (s : SortState) (hs : c.sortable = true) (hk : s.key ≠ some c.key) :
    handleSort c (handleSort c (handleSort c s)) = initialSortState ∧
    sortedData data columns (handleSort c (handleSort c (handleSort c s))) = data := by
  have h1 : handleSort c s = { key := some c.key, order := some SortOrder.asc } := by
    simp [handleSort, hs, hk]
  have h2 : handleSort c { key := some c.key, order := some SortOrder.asc } =
      { key := some c.key, order := some SortOrder.desc } := by
    simp [handleSort, hs]
  have h3 : handleSort c { key := some c.key, order := some SortOrder.desc } =
      initialSortState := by
    simp [handleSort, hs, initialSortState]
  rw [h1, h2, h3]
  exact ⟨rfl, rfl⟩

/-- Witness for C5 at a concrete input. -/
theorem threeClicks_restore_witness :
    handleSort colA (handleSort colA (handleSort colA initialSortState)) =
      initialSortState ∧
    sortedData [Value.num 1] [colA]
        (handleSort colA (handleSort colA (handleSort colA initialSortState))) =
      [Value.num 1] :=
  threeClicks_restore [Value.num 1] [colA] colA initialSortState rfl
    (by simp [initialSortState])

/-- C10: when the active sort key matches no supplied column, the sorted view
silently falls back to the input data unchanged. -/
theorem sortedData_unknown_column {T : Type} (data : List T)
    (columns : List (Column T)) (k : String) (ord : SortOrder)
    (h : ∀ col ∈ columns, col.key ≠ k) :
    sortedData data columns { key := some k, order := some ord } = data := by
  by_cases hk : k = ""
  · simp [sortedData, hk]
  · have hfind : columns.find? (fun col => col.key == k) = none :=
      List.find?_eq_none.mpr (fun col hc => by simpa using h col hc)
    simp [sortedData, hk, hfind]

/-- Witness for C10 at a concrete input: sorting on the unknown key `zzz`
returns the data unchanged. -/
theorem sortedData_unknown_column_witness :
    sortedData [Value.num 1] [colA] { key := some "zzz", order := some SortOrder.asc } =
      [Value.num 1] :=
  sortedData_unknown_column [Value.num 1] [colA] "zzz" SortOrder.asc
    (fun col hc => by rcases List.mem_singleton.mp hc with rfl; decide)

/-- C8: for every data sequence and sort state, the select-all emission is the
data sequence itself in input order (hence of equal length), and the
deselect-all emission is empty. The sort state and columns do not enter the
handler at all, so the emission ignores the current sort order. -/
theorem selectAll_emission {T : Type} (data : List T) (_columns : List (Column T))
    (_s : SortState) :
    handleSelectAll data true = data ∧
    (handleSelectAll data true).length = data.length ∧
    handleSelectAll data false = [] := by
  simp [handleSelectAll]

/-- C7: checking a record whose key is absent from the selection's keys and
then unchecking it restores the selection exactly. -/
theorem check_uncheck_roundtrip {T : Type} (rk : RowKeySpec T) (sel : List T)
    (r : T) (h : getRowKey rk r 0 ∉ sel.map (fun row => getRowKey rk row 0)) :
    handleRowSelect rk (handleRowSelect rk sel r true) r false = sel := by
  have hall : ∀ row ∈ sel, getRowKey rk row 0 ≠ getRowKey rk r 0 := by
    intro row hrow heq
    exact h (heq ▸ List.mem_map_of_mem _ hrow)
  show ((sel ++ [r]).filter _) = sel
  rw [List.filter_append]
  have h1 : sel.filter (fun row => getRowKey rk row 0 ≠ getRowKey rk r 0) = sel :=
    List.filter_eq_self.mpr (fun row hrow => by simpa using hall row hrow)
  have h2 : ([r].filter (fun row => getRowKey rk row 0 ≠ getRowKey rk r 0)) = [] := by
    simp
  rw [h1, h2, List.append_nil]

/-- Witness for C7 at a concrete input. -/
theorem check_uncheck_roundtrip_witness :
    handleRowSelect (RowKeySpec.func id)
        (handleRowSelect (RowKeySpec.func id) [Value.num 1] (Value.num 2) true)
        (Value.num 2) false = [Value.num 1] :=
  check_uncheck_roundtrip (RowKeySpec.func id) [Value.num 1] (Value.num 2) (by decide)

/-- C4: the sorted view is a pure derivation of data, columns and sort state
(it is a function of exactly those three here) and it only reorders a copy of
the input: the result is always a permutation of `data`, and `data` itself is
untouched. -/
theorem sortedData_perm {T : Type} (data : List T) (columns : List (Column T))
    (s : SortState) : (sortedData data columns s).Perm data := by
  rcases s with ⟨_ | k, _ | ord⟩
  · exact List.Perm.refl data
  · exact List.Perm.refl data
  · exact List.Perm.refl data
  · by_cases hk : k = ""
    · simp [sortedData, hk]
    · rcases hfind : columns.find? (fun col => col.key == k) with _ | column
      · simp [sortedData, hk, hfind]
      · simpa [sortedData, hk, hfind] using
          List.perm_insertionSort (fun a b => rowCompare column ord a b ≤ 0) data


/-- C3: the comparator returns 0 on strictly equal values; otherwise a nullish
value is less than a defined one (-1 when only the left is nullish, +1 when
only the right is); two strings compare by the locale comparison; any other
pair maps the `<` test to -1/+1; descending negates the result; in particular
a nullish value sorts before a defined one ascending and after it
descending. -/
theorem comparator_spec (a b : Value) (ord : SortOrder) :
    (a = b → applyOrder ord (compareValues a b) = 0) ∧
    (a ≠ b → a.isNullish = true → b.isNullish = false → compareValues a b = -1) ∧
    (a ≠ b → a.isNullish = false → b.isNullish = true → compareValues a b = 1) ∧
    (∀ s t : String, s ≠ t →
      compareValues (Value.str s) (Value.str t) = localeCompare s t) ∧
    (a ≠ b → a.isNullish = false → b.isNullish = false →
      (a.isStr && b.isStr) = false →
      compareValues a b = if jsLt a b then -1 else 1) ∧
    (applyOrder SortOrder.desc (compareValues a b) = -(compareValues a b)) ∧
    (a.isNullish = true → b.isNullish = false →
      applyOrder SortOrder.asc (compareValues a b) < 0 ∧
      0 < applyOrder SortOrder.desc (compareValues a b)) := by
  refine ⟨?_, ?_, ?_, ?_, ?_, rfl, ?_⟩
  · rintro rfl
    cases ord <;> simp [compareValues, applyOrder]
  · intro hne ha hb
    simp [compareValues, hne, ha]
  · intro hne ha hb
    simp [compareValues, hne, ha, hb]
  · intro s t hst
    simp [compareValues, hst, Value.isNullish]
  · intro hne ha hb hstr
    cases a <;> cases b <;> simp_all [compareValues, Value.isNullish, Value.isStr]
  · intro ha hb
    have hne : a ≠ b := by
      intro h
      rw [h, hb] at ha
      exact Bool.false_ne_true ha
    have hcv : compareValues a b = -1 := by simp [compareValues, hne, ha]
    simp [applyOrder, hcv]

/-- Witness for C3 at a concrete input: `null` against a number compares -1. -/
theorem comparator_spec_witness :
    compareValues Value.null (Value.num 5) = -1 :=
  (comparator_spec Value.null (Value.num 5) SortOrder.asc).2.1
    (by decide) (by decide) (by decide)

/-- Counterexample for C1: with `loading = true` the table body is the single
spinner row carrying `loadingText`, not the three-row skeleton block that
`LoadingSkeleton` would produce (the component is defined but never
rendered). -/
theorem loadingBody_counterexample :
    renderBody true "Loading..." "No data available" false [colA] [Value.num 1]
        initialSortState = TableBody.loadingRow 1 "Loading..." ∧
    (TableBody.loadingRow 1 "Loading..." : TableBody Value) ≠
      TableBody.skeleton (LoadingSkeleton false [colA]) :=
  ⟨rfl, by decide⟩

/-- C1 amended: with `loading = true` the body is a single full-width loading
row carrying `loadingText` (colSpan counts the columns plus the selection
column), regardless of the data; the unused `LoadingSkeleton` component would
render exactly 3 rows, each with one placeholder cell per column plus a
selection placeholder cell when selectable. -/
theorem loadingBody_amended {T : Type} (data : List T) (columns : List (Column T))
    (selectable : Bool) (ltext etext : String) (s : SortState) :
    renderBody true ltext etext selectable columns data s =
      TableBody.loadingRow (columns.length + (if selectable then 1 else 0)) ltext ∧
    (LoadingSkeleton (T := T) selectable columns).length = 3 ∧
    ∀ row ∈ LoadingSkeleton (T := T) selectable columns,
      row.length = columns.length + (if selectable then 1 else 0) := by
  refine ⟨rfl, by simp [LoadingSkeleton], ?_⟩
  intro row hrow
  simp only [LoadingSkeleton] at hrow
  rcases List.eq_of_mem_replicate hrow with rfl
  cases selectable <;> simp [Nat.add_comm]

/-- Witness for C1's amended theorem at a concrete input, discharging the row
membership hypothesis. -/
theorem loadingBody_amended_witness :
    (LoadingSkeleton (T := Value) true [colA]).length = 3 ∧
    ([SkelCell.select, SkelCell.col] : List SkelCell).length =
      [colA].length + (if true then 1 else 0) :=
  ⟨(loadingBody_amended ([] : List Value) [colA] true "Loading..." "No data available"
      initialSortState).2.1,
    (loadingBody_amended ([] : List Value) [colA] true "Loading..." "No data available"
      initialSortState).2.2 [SkelCell.select, SkelCell.col] (by decide)⟩


/-! Supporting lemmas for the sort-reversal analysis (C6): the comparator
returns 0 exactly on equal values, and a stable insertion sort under a
comparator that is connected and transitive on the list sorts the negated
comparator into the exact reverse order. -/

/-- Lexicographic character-list comparison is zero exactly on equal lists. -/
theorem lexCmp_eq_zero_iff (l1 l2 : List Char) : lexCmp l1 l2 = 0 ↔ l1 = l2 := by
  induction l1 generalizing l2 with
  | nil => cases l2 <;> simp [lexCmp]
  | cons a as ih =>
    cases l2 with
    | nil => simp [lexCmp]
    | cons b bs =>
      show (if a < b then (-1 : Int) else if b < a then 1 else lexCmp as bs) = 0 ↔ _
      rcases lt_trichotomy a b with h | h | h
      · rw [if_pos h]
        constructor
        · intro h0
          exact absurd h0 (by decide)
        · intro heq
          cases heq
          exact absurd h (lt_irrefl a)
      · subst h
        rw [if_neg (lt_irrefl a), if_neg (lt_irrefl a)]
        simp [ih]
      · rw [if_neg (asymm h), if_pos h]
        constructor
        · intro h0
          exact absurd h0 (by decide)
        · intro heq
          cases heq
          exact absurd h (lt_irrefl a)

/-- The locale comparison model is zero exactly on equal strings. -/
theorem localeCompare_eq_zero_iff (s t : String) : localeCompare s t = 0 ↔ s = t := by
  unfold localeCompare
  by_cases h : s.data.map Char.toLower = t.data.map Char.toLower
  · rw [if_pos h, lexCmp_eq_zero_iff]
    constructor
    · intro hd
      exact (String.ext hd).symm
    · rintro rfl
      rfl
  · rw [if_neg h, lexCmp_eq_zero_iff]
    constructor
    · intro hd
      exact absurd hd h
    · rintro rfl
      exact absurd rfl h

/-- The comparator is reflexive-zero: strictly equal values compare 0. -/
theorem compareValues_self (a : Value) : compareValues a a = 0 := by
  simp [compareValues]

/-- The comparator returns 0 exactly on strictly equal values. -/
theorem compareValues_eq_zero_iff (a b : Value) : compareValues a b = 0 ↔ a = b := by
  constructor
  · intro h
    by_contra hne
    rw [compareValues.eq_def, if_neg hne] at h
    cases a with
    | null =>
      cases b with
      | null => exact hne rfl
      | undef =>
        have h1 : (-1 : Int) = 0 := h
        exact absurd h1 (by decide)
      | str t =>
        have h1 : (-1 : Int) = 0 := h
        exact absurd h1 (by decide)
      | num m =>
        have h1 : (-1 : Int) = 0 := h
        exact absurd h1 (by decide)
    | undef =>
      cases b with
      | null =>
        have h1 : (-1 : Int) = 0 := h
        exact absurd h1 (by decide)
      | undef => exact hne rfl
      | str t =>
        have h1 : (-1 : Int) = 0 := h
        exact absurd h1 (by decide)
      | num m =>
        have h1 : (-1 : Int) = 0 := h
        exact absurd h1 (by decide)
    | str s =>
      cases b with
      | null =>
        have h1 : (1 : Int) = 0 := h
        exact absurd h1 (by decide)
      | undef =>
        have h1 : (1 : Int) = 0 := h
        exact absurd h1 (by decide)
      | str t =>
        have h1 : localeCompare s t = 0 := h
        exact hne (congrArg Value.str ((localeCompare_eq_zero_iff s t).mp h1))
      | num m =>
        have h1 : (if jsLt (Value.str s) (Value.num m) then (-1 : Int) else 1) = 0 := h
        split_ifs at h1 <;> exact absurd h1 (by decide)
    | num n =>
      cases b with
      | null =>
        have h1 : (1 : Int) = 0 := h
        exact absurd h1 (by decide)
      | undef =>
        have h1 : (1 : Int) = 0 := h
        exact absurd h1 (by decide)
      | str t =>
        have h1 : (if jsLt (Value.num n) (Value.str t) then (-1 : Int) else 1) = 0 := h
        split_ifs at h1 <;> exact absurd h1 (by decide)
      | num m =>
        have h1 : (if jsLt (Value.num n) (Value.num m) then (-1 : Int) else 1) = 0 := h
        split_ifs at h1 <;> exact absurd h1 (by decide)
  · rintro rfl
    exact compareValues_self a

/-- A stable insertion sort under an integer comparator that is tie-free,
connected and transitive on the list produces, for the negated comparator,
the exact reverse of what it produces for the comparator itself. -/
theorem insertionSort_neg_reverse {α : Type} (cmp : α → α → Int) (l : List α)
    (hrefl : ∀ a, cmp a a = 0)
    (hzero : ∀ a b, cmp a b = 0 → cmp b a = 0)
    (hdist : l.Pairwise (fun a b => cmp a b ≠ 0))
    (hconn : ∀ a ∈ l, ∀ b ∈ l, cmp a b < 0 ↔ 0 < cmp b a)
    (htrans : ∀ a ∈ l, ∀ b ∈ l, ∀ d ∈ l,
      cmp a b < 0 → cmp b d < 0 → cmp a d < 0) :
    List.insertionSort (fun a b => cmp a b ≤ 0) l =
      (List.insertionSort (fun a b => -(cmp a b) ≤ 0) l).reverse := by
  classical
  have hsymm : Symmetric (fun x y : α => cmp x y ≠ 0) := by
    intro x y hxy h0
    exact hxy (hzero y x h0)
  have key : ∀ a ∈ l, ∀ b ∈ l, a ≠ b → cmp a b ≠ 0 := by
    intro a ha b hb hab
    exact hdist.forall hsymm ha hb hab
  let S := {x // x ∈ l}
  let R : S → S → Prop := fun a b => cmp a.1 b.1 ≤ 0
  let R' : S → S → Prop := fun a b => -(cmp a.1 b.1) ≤ 0
  haveI hdecR : DecidableRel R := fun a b => Int.decLe _ _
  haveI hdecR' : DecidableRel R' := fun a b => Int.decLe _ _
  haveI htotR : IsTotal S R := by
    refine ⟨fun a b => ?_⟩
    by_cases h : a.1 = b.1
    · left
      show cmp a.1 b.1 ≤ 0
      rw [h, hrefl]
    · rcases lt_trichotomy (cmp a.1 b.1) 0 with hlt | h0 | hgt
      · exact Or.inl (le_of_lt hlt)
      · exact absurd h0 (key a.1 a.2 b.1 b.2 h)
      · exact Or.inr (le_of_lt ((hconn b.1 b.2 a.1 a.2).mpr hgt))
  haveI htransR : IsTrans S R := by
    refine ⟨fun a b c hab hbc => ?_⟩
    by_cases h1 : a.1 = b.1
    · show cmp a.1 c.1 ≤ 0
      rw [h1]
      exact hbc
    · by_cases h2 : b.1 = c.1
      · show cmp a.1 c.1 ≤ 0
        rw [← h2]
        exact hab
      · by_cases h3 : a.1 = c.1
        · show cmp a.1 c.1 ≤ 0
          rw [h3, hrefl]
        · have hab' : cmp a.1 b.1 < 0 :=
            lt_of_le_of_ne hab (key a.1 a.2 b.1 b.2 h1)
          have hbc' : cmp b.1 c.1 < 0 :=
            lt_of_le_of_ne hbc (key b.1 b.2 c.1 c.2 h2)
          exact le_of_lt (htrans a.1 a.2 b.1 b.2 c.1 c.2 hab' hbc')
  haveI hantiR : IsAntisymm S R := by
    refine ⟨fun a b hab hba => ?_⟩
    by_cases h : a.1 = b.1
    · exact Subtype.ext h
    · have hab' : cmp a.1 b.1 < 0 :=
        lt_of_le_of_ne hab (key a.1 a.2 b.1 b.2 h)
      have : 0 < cmp b.1 a.1 := (hconn a.1 a.2 b.1 b.2).mp hab'
      exact absurd hba (not_le.mpr this)
  have hflip : ∀ a b : S, R' a b ↔ R b a := by
    intro a b
    show -(cmp a.1 b.1) ≤ 0 ↔ cmp b.1 a.1 ≤ 0
    rw [neg_nonpos]
    constructor
    · intro h0
      rcases lt_or_eq_of_le h0 with hgt | heq
      · exact le_of_lt ((hconn b.1 b.2 a.1 a.2).mpr hgt)
      · rw [hzero a.1 b.1 heq.symm]
    · intro h0
      rcases lt_or_eq_of_le h0 with hlt | heq
      · exact le_of_lt ((hconn b.1 b.2 a.1 a.2).mp hlt)
      · rw [hzero b.1 a.1 heq]
  haveI htotR' : IsTotal S R' := by
    refine ⟨fun a b => ?_⟩
    rcases total_of R b a with h | h
    · exact Or.inl ((hflip a b).mpr h)
    · exact Or.inr ((hflip b a).mpr h)
  haveI htransR' : IsTrans S R' := by
    refine ⟨fun a b c h1 h2 => ?_⟩
    exact (hflip a c).mpr (trans_of R ((hflip b c).mp h2) ((hflip a b).mp h1))
  have hperm1 : List.Perm (List.insertionSort R l.attach) l.attach :=
    List.perm_insertionSort R l.attach
  have hsorted1 : List.Sorted R (List.insertionSort R l.attach) :=
    List.sorted_insertionSort R l.attach
  have hperm2 : List.Perm (List.insertionSort R' l.attach).reverse l.attach :=
    (List.reverse_perm _).trans (List.perm_insertionSort R' l.attach)
  have hsorted2 : List.Sorted R ((List.insertionSort R' l.attach).reverse) := by
    have h2 : List.Sorted R' (List.insertionSort R' l.attach) :=
      List.sorted_insertionSort R' l.attach
    rw [List.Sorted, List.pairwise_reverse]
    exact h2.imp (fun hab => (hflip _ _).mp hab)
  have heq : List.insertionSort R l.attach = (List.insertionSort R' l.attach).reverse :=
    List.eq_of_perm_of_sorted (hperm1.trans hperm2.symm) hsorted1 hsorted2
  have hmap1 : (List.insertionSort R l.attach).map Subtype.val =
      List.insertionSort (fun a b => cmp a b ≤ 0) l := by
    rw [List.map_insertionSort R (fun a b => cmp a b ≤ 0) Subtype.val l.attach
      (fun a _ b _ => Iff.rfl), List.attach_map_subtype_val]
  have hmap2 : (List.insertionSort R' l.attach).map Subtype.val =
      List.insertionSort (fun a b => -(cmp a b) ≤ 0) l := by
    rw [List.map_insertionSort R' (fun a b => -(cmp a b) ≤ 0) Subtype.val l.attach
      (fun a _ b _ => Iff.rfl), List.attach_map_subtype_val]
  calc List.insertionSort (fun a b => cmp a b ≤ 0) l
      = (List.insertionSort R l.attach).map Subtype.val := hmap1.symm
    _ = ((List.insertionSort R' l.attach).reverse).map Subtype.val := by rw [heq]
    _ = ((List.insertionSort R' l.attach).map Subtype.val).reverse :=
        List.map_reverse _ _
    _ = (List.insertionSort (fun a b => -(cmp a b) ≤ 0) l).reverse := by rw [hmap2]


/-- Counterexample for C6: over mixed number and numeric-string values the
comparator is cyclic (`5 < "09"` numerically after coercion, `"09" < "1"` in
string order, `"1" < 5` numerically), so even with pairwise distinct
comparator values the ascending and descending sorts of
`[5, "09", "1"]` are not reverses of each other. -/
theorem ascDesc_reverse_counterexample :
    ([Value.num 5, Value.str "09", Value.str "1"] : List Value) ≠ [] ∧
    colA.sortable = true ∧
    ([Value.num 5, Value.str "09", Value.str "1"] : List Value).Pairwise
      (fun a b => compareValues (colA.dataIndex a) (colA.dataIndex b) ≠ 0) ∧
    sortedData [Value.num 5, Value.str "09", Value.str "1"] [colA]
        { key := some "a", order := some SortOrder.asc } ≠
      (sortedData [Value.num 5, Value.str "09", Value.str "1"] [colA]
        { key := some "a", order := some SortOrder.desc }).reverse := by
  refine ⟨by decide, rfl, by decide, by decide⟩

/-- C6 amended: for non-empty data and a sortable column whose comparator is
additionally consistent on the data (connected: one side strictly precedes
the other whenever the comparator is nonzero; and transitive) — as holds when
the column's values are all numbers or all strings — pairwise distinct
comparator values imply that the ascending and descending sorts are exact
reverses of each other. -/
theorem ascDesc_reverse_amended {T : Type} (data : List T)
    (columns : List (Column T)) (c : Column T)
    (_hne : data ≠ []) (_hsort : c.sortable = true) (hkey : c.key ≠ "")
    (hfind : columns.find? (fun col => col.key == c.key) = some c)
    (hdist : data.Pairwise
      (fun a b => compareValues (c.dataIndex a) (c.dataIndex b) ≠ 0))
    (hconn : ∀ a ∈ data, ∀ b ∈ data,
      compareValues (c.dataIndex a) (c.dataIndex b) < 0 ↔
        0 < compareValues (c.dataIndex b) (c.dataIndex a))
    (htrans : ∀ a ∈ data, ∀ b ∈ data, ∀ d ∈ data,
      compareValues (c.dataIndex a) (c.dataIndex b) < 0 →
      compareValues (c.dataIndex b) (c.dataIndex d) < 0 →
      compareValues (c.dataIndex a) (c.dataIndex d) < 0) :
    sortedData data columns { key := some c.key, order := some SortOrder.asc } =
      (sortedData data columns
        { key := some c.key, order := some SortOrder.desc }).reverse := by
  have hred : ∀ ord, sortedData data columns { key := some c.key, order := some ord } =
      List.insertionSort (fun a b => rowCompare c ord a b ≤ 0) data := by
    intro ord
    simp [sortedData, hkey, hfind]
  rw [hred SortOrder.asc, hred SortOrder.desc]
  exact insertionSort_neg_reverse
    (fun x y => compareValues (c.dataIndex x) (c.dataIndex y)) data
    (fun x => compareValues_self _)
    (fun x y h0 => by
      have hv : c.dataIndex x = c.dataIndex y := (compareValues_eq_zero_iff _ _).mp h0
      show compareValues (c.dataIndex y) (c.dataIndex x) = 0
      rw [← hv]
      exact compareValues_self _)
    hdist hconn htrans

/-- Witness for C6's amended theorem at a concrete input: two distinct
numbers, where the comparator is consistent. -/
theorem ascDesc_reverse_witness :
    sortedData [Value.num 2, Value.num 1] [colA]
        { key := some "a", order := some SortOrder.asc } =
      (sortedData [Value.num 2, Value.num 1] [colA]
        { key := some "a", order := some SortOrder.desc }).reverse :=
  ascDesc_reverse_amended [Value.num 2, Value.num 1] [colA] colA
    (by decide) rfl (by decide) rfl (by decide) (by decide) (by decide)

end DataTable
